import Mathlib

/-
Verification of the BioNews backend (src/backend/server.py) against its
natural-language specification.

Python strings are modelled as `List Char`; `str.lower`, `str.strip`,
`str.split('\n')`, `str.startswith`, `str.replace`, slicing `[:n]` and the
`in` substring test are embedded below as executable functions on
`List Char`.  Character classes used by the code (`[A-Z]`, `[a-z]`, `\d`,
`\w`) are the ASCII classes, matching `Char.isUpper`, `Char.isLower`,
`Char.isDigit` and `Char.isAlphanum`.  The Mongo store is modelled as a
list of records, network calls as explicit `Option`/`Except` parameters,
and timestamps as naturals.
-/

/-- Python `str.lower()`: character-wise lower-casing. -/
def pyLower (l : List Char) : List Char := l.map Char.toLower

/-- Python `str.strip()`: drop whitespace from both ends. -/
def pyStrip (l : List Char) : List Char :=
  List.reverse (List.dropWhile Char.isWhitespace
    (List.reverse (List.dropWhile Char.isWhitespace l)))

/-- Python `pat in text` for strings: contiguous-substring test. -/
def containsSub (pat : List Char) : List Char → Bool
  | [] => pat.isEmpty
  | c :: rest => pat.isPrefixOf (c :: rest) || containsSub pat rest

/-- Python `str.replace(pat, rep)` for a non-empty pattern `p :: ps`:
replace every non-overlapping occurrence, scanning left to right. -/
def pyReplace (p : Char) (ps rep : List Char) : List Char → List Char
  | [] => []
  | c :: rest =>
    if (p :: ps).isPrefixOf (c :: rest) then
      rep ++ pyReplace p ps rep (List.drop ps.length rest)
    else
      c :: pyReplace p ps rep rest
termination_by l => l.length
decreasing_by
  · simp only [List.length_drop, List.length_cons]
    omega
  · simp only [List.length_cons]
    omega

/-- Python `str.replace(pat, rep)`.  All call sites in `server.py` pass a
non-empty literal pattern; the empty-pattern case never occurs and is
mapped to the identity. -/
def pyReplaceStr (pat rep l : List Char) : List Char :=
  match pat with
  | [] => l
  | p :: ps => pyReplace p ps rep l

/-- The literal line tag `HEADLINE:` from `summarize_article`. -/
def hlTag : List Char := ("HEADLINE:").data

/-- The literal line tag `SUMMARY:` from `summarize_article`. -/
def smTag : List Char := ("SUMMARY:").data

/-- The response-parsing loop of `summarize_article` (server.py lines
516-520): for each line, a `HEADLINE:` line overwrites the headline with
`line.replace('HEADLINE:','').strip()[:60]`, an (elif) `SUMMARY:` line
overwrites the summary with `line.replace('SUMMARY:','').strip()[:400]`. -/
def parseLoop : List (List Char) → List Char × List Char → List Char × List Char
  | [], hs => hs
  | line :: rest, (h, s) =>
    if hlTag.isPrefixOf line then
      parseLoop rest (List.take 60 (pyStrip (pyReplaceStr hlTag [] line)), s)
    else if smTag.isPrefixOf line then
      parseLoop rest (h, List.take 400 (pyStrip (pyReplaceStr smTag [] line)))
    else
      parseLoop rest (h, s)

/-- `summarize_article(content, title)` from server.py lines 505-529.
The external text-generation call is modelled by `resp`: `none` when the
call raises (the `except` path), `some r` when it returns text `r`.  Both
the fallback initialisation (lines 513-514) and the `except` fallback
(lines 527-528) are `title[:60]` and `content[:400] + "..."`; on the
success path the reply is stripped, split on newlines and scanned by
`parseLoop`. -/
def summarize_article (resp : Option (List Char)) (content title : List Char) :
    List Char × List Char :=
  match resp with
  | none => (List.take 60 title, List.take 400 content ++ ("...").data)
  | some r =>
      parseLoop (List.splitOn '\n' (pyStrip r))
        (List.take 60 title, List.take 400 content ++ ("...").data)

/-- The fixed category set `CATEGORIES` (server.py lines 51-58). -/
def CATEGORIES : List String :=
  ["Academic Research", "Industry Updates", "Early Discovery",
   "Clinical Trials", "Drug Modalities", "Healthcare & Policy"]

/-- `CATEGORY_MAPPING` (server.py lines 110-121), in Python dict insertion
order, which is the iteration order of `CATEGORY_MAPPING.items()`. -/
def CATEGORY_MAPPING : List (List Char × String) :=
  [(("clinical trial").data, "Clinical Trials"),
   (("fda approval").data, "Drug Modalities"),
   (("biotech").data, "Industry Updates"),
   (("pharmaceutical").data, "Industry Updates"),
   (("drug discovery").data, "Early Discovery"),
   (("research").data, "Academic Research"),
   (("healthcare policy").data, "Healthcare & Policy"),
   (("gene therapy").data, "Drug Modalities"),
   (("cancer treatment").data, "Clinical Trials"),
   (("vaccine").data, "Drug Modalities")]

/-- `categorize_article(title, content)` (server.py lines 177-198):
first-match-wins scan of `CATEGORY_MAPPING` over the lower-cased
`title + " " + content`, then the ordered broader keyword groups, with
absolute fallback `Industry Updates`. -/
def categorize_article (title content : List Char) : String :=
  let text := pyLower (title ++ [' '] ++ content)
  match CATEGORY_MAPPING.find? (fun kv => containsSub kv.1 text) with
  | some kv => kv.2
  | none =>
    if [("clinical").data, ("trial").data, ("patient").data,
        ("treatment").data].any (fun w => containsSub w text) then
      "Clinical Trials"
    else if [("discovery").data, ("compound").data,
        ("molecule").data].any (fun w => containsSub w text) then
      "Early Discovery"
    else if [("fda").data, ("approval").data, ("drug").data,
        ("therapy").data].any (fun w => containsSub w text) then
      "Drug Modalities"
    else if [("policy").data, ("regulation").data,
        ("healthcare").data].any (fun w => containsSub w text) then
      "Healthcare & Policy"
    else if [("research").data, ("study").data,
        ("university").data].any (fun w => containsSub w text) then
      "Academic Research"
    else
      "Industry Updates"

/-- Word character of the `\b` boundary in Python `re` (ASCII part):
letters, digits and underscore. -/
def isWordChar (c : Char) : Bool := c.isAlphanum || c == '_'

/-- Attempt of the first regex branch `\b[A-Z]{2,}-\d+\b` at the current
position.  `prevW` tells whether the preceding character is a word
character (false at the string start), deciding the leading `\b`.  For
this branch greedy matching needs no backtracking: the uppercase run must
be maximal (the next pattern char `-` is not uppercase) and the digit run
must be maximal (shortening it leaves a digit, a word character, on both
sides of the required trailing `\b`).  Returns `some n` for a match of
length `n + 1`. -/
def matchPat1 (prevW : Bool) (l : List Char) : Option Nat :=
  if prevW then none
  else
    let k := (l.takeWhile Char.isUpper).length
    if k < 2 then none
    else
      match l.drop k with
      | '-' :: rest2 =>
        let d := (rest2.takeWhile Char.isDigit).length
        if d = 0 then none
        else
          match rest2.drop d with
          | [] => some (k + d)
          | c :: _ => if isWordChar c then none else some (k + d)
      | _ => none

/-- Attempt of the second regex branch `\b[A-Z][a-z]+\d+\b` at the
current position.  Greedy matching needs no backtracking: the lowercase
run must be maximal (shortening it leaves a lowercase letter where `\d`
is required) and the digit run must be maximal (shortening it leaves a
digit, a word character, on both sides of the required trailing `\b`).
Returns `some n` for a match of length `n + 1`. -/
def matchPat2 (prevW : Bool) (l : List Char) : Option Nat :=
  if prevW then none
  else
    match l with
    | [] => none
    | c :: rest =>
      if c.isUpper then
        let m := (rest.takeWhile Char.isLower).length
        if m = 0 then none
        else
          let d := ((rest.drop m).takeWhile Char.isDigit).length
          if d = 0 then none
          else
            match (rest.drop m).drop d with
            | [] => some (m + d)
            | x :: _ => if isWordChar x then none else some (m + d)
      else none

/-- `re.findall(r'\b[A-Z]{2,}-\d+\b|\b[A-Z][a-z]+\d+\b', text)` of
`extract_keywords` (server.py lines 218-219): scan left to right, at each
position try the first branch then the second, emit the leftmost match and
resume right after it. -/
def reFindAll (prevW : Bool) : List Char → List (List Char)
  | [] => []
  | c :: rest =>
    match matchPat1 prevW (c :: rest) with
    | some n =>
        let m := List.take (n + 1) (c :: rest)
        m :: reFindAll (match m.getLast? with
          | some x => isWordChar x
          | none => prevW) (List.drop n rest)
    | none =>
      match matchPat2 prevW (c :: rest) with
      | some n =>
          let m := List.take (n + 1) (c :: rest)
          m :: reFindAll (match m.getLast? with
            | some x => isWordChar x
            | none => prevW) (List.drop n rest)
      | none => reFindAll (isWordChar c) rest
termination_by l => l.length
decreasing_by
  · simp only [List.length_drop, List.length_cons]
    omega
  · simp only [List.length_drop, List.length_cons]
    omega
  · simp only [List.length_cons]
    omega

/-- The fixed vocabulary `biotech_keywords` of `extract_keywords`
(server.py lines 205-210), in source order. -/
def biotech_keywords : List (List Char) :=
  [("crispr").data, ("gene therapy").data, ("car-t").data,
   ("immunotherapy").data, ("mrna").data, ("vaccine").data,
   ("clinical trial").data, ("fda approval").data, ("biomarker").data,
   ("precision medicine").data, ("antibody").data, ("protein").data,
   ("small molecule").data, ("biologics").data, ("biosimilar").data,
   ("oncology").data, ("neurology").data, ("cardiology").data,
   ("rare disease").data, ("orphan drug").data]

/-- `extract_keywords(title, content)` (server.py lines 200-222):
vocabulary matches over the lower-cased `title + " " + content` in
vocabulary order, then up to 3 regex matches over the raw
`title + " " + content`, the whole truncated to 5. -/
def extract_keywords (title content : List Char) : List (List Char) :=
  let text := pyLower (title ++ [' '] ++ content)
  let found := biotech_keywords.filter (fun k => containsSub k text)
  let drugMatches := reFindAll false (title ++ [' '] ++ content)
  List.take 5 (found ++ List.take 3 drugMatches)

/-- The fields of a raw article dict that the modelled pipeline reads
(`title`, `content`, `url`, `category`); the remaining fields (`source`,
`image_url`, `published_at`, `keywords`) are carried through server.py
unchanged and do not affect any modelled operation. -/
structure NewsItem where
  title : List Char
  content : List Char
  url : List Char
  category : String
  deriving DecidableEq

/-- The dedup fingerprint `article['title'].lower()[:50]` (server.py line
493). -/
def fingerprintT (t : List Char) : List Char := List.take 50 (pyLower t)

/-- The dedup loop of `fetch_real_biotech_news` (server.py lines 489-496):
a `seen_titles` set admits the first occurrence of each fingerprint only.
The Python set is modelled as the list of fingerprints added so far. -/
def dedupGo : List NewsItem → List (List Char) → List NewsItem
  | [], _ => []
  | a :: rest, seen =>
    if seen.contains (fingerprintT a.title) then dedupGo rest seen
    else a :: dedupGo rest (fingerprintT a.title :: seen)

/-- In-batch deduplication over a merged batch, starting from an empty
`seen_titles` set. -/
def dedupBatch (l : List NewsItem) : List NewsItem := dedupGo l []

/-- The merge loop of `fetch_real_biotech_news` (server.py lines 480-486):
`asyncio.gather(..., return_exceptions=True)` yields one result per task,
a list on success or an exception; list results are concatenated in task
order, exceptions are logged and contribute nothing. -/
def mergeResults (results : List (Except Unit (List NewsItem))) : List NewsItem :=
  results.foldl (fun acc r =>
    match r with
    | .ok items => acc ++ items
    | .error _ => acc) []

/-- `fetch_real_biotech_news()` (server.py lines 467-503) given the
per-task results: merge, dedup by title fingerprint, truncate to 30. -/
def fetch_real_biotech_news (results : List (Except Unit (List NewsItem))) : List NewsItem :=
  List.take 30 (dedupBatch (mergeResults results))

/-- A persisted article document: the fields of the `Article` model that
the modelled pipeline reads or writes.  `id`, `source`, `image_url`,
`published_at`, `keywords` and `created_at` are carried through unchanged
and affect no modelled operation. -/
structure StoredArticle where
  title : List Char
  content : List Char
  url : List Char
  category : String
  headline : List Char
  summary : List Char
  deriving DecidableEq

/-- The duplicate check of `refresh_articles` / `scheduled_news_update`
(server.py lines 732-737 and 861-866): `db.articles.find_one` with
`$or` of an exact URL match and the anchored case-insensitive regex
`^re.escape(title[:50])` on the stored title, i.e. a case-insensitive
title-prefix test. -/
def existsInStore (store : List StoredArticle) (it : NewsItem) : Bool :=
  store.any (fun a =>
    a.url == it.url ||
    (pyLower (List.take 50 it.title)).isPrefixOf (pyLower a.title))

/-- The process state touched by a news cycle: the `articles` collection
and the global `last_news_update` cursor (timestamps as naturals). -/
structure ServerState where
  articles : List StoredArticle
  last_news_update : Nat
  deriving DecidableEq

/-- The per-item loop of `refresh_articles` (server.py lines 730-752) and
`scheduled_news_update` (lines 859-881): skip items already in the store,
otherwise summarize (which never raises) and `insert_one`.  The store is
the only fallible collaborator: `insertFails n = true` means the `n`-th
`insert_one` call of this cycle raises.  `.error s` is the state of the
collection when the exception propagates out of the loop; `.ok s` is the
state after a completed loop. -/
def insertLoop (respOf : NewsItem → Option (List Char)) (insertFails : Nat → Bool) :
    List NewsItem → Nat → List StoredArticle →
      Except (List StoredArticle) (List StoredArticle)
  | [], _, store => .ok store
  | it :: rest, n, store =>
    if existsInStore store it then insertLoop respOf insertFails rest n store
    else
      let hs := summarize_article (respOf it) it.content it.title
      if insertFails n then .error store
      else
        insertLoop respOf insertFails rest (n + 1)
          (store ++ [⟨it.title, it.content, it.url, it.category, hs.1, hs.2⟩])

/-- `refresh_articles` (server.py lines 720-765): run the per-item loop in
a `try` block; on success set `last_news_update = now` (line 754); on an
exception the cursor assignment is never reached (the `except` block
re-raises as an HTTPException — in `scheduled_news_update`, lines 850-887,
it only logs; either way the cursor keeps its prior value).  The returned
Bool is `true` iff the cycle completed without a store failure. -/
def refresh_articles (fetched : List NewsItem) (respOf : NewsItem → Option (List Char))
    (insertFails : Nat → Bool) (now : Nat) (st : ServerState) : ServerState × Bool :=
  match insertLoop respOf insertFails fetched 0 st.articles with
  | .ok store2 => (⟨store2, now⟩, true)
  | .error store2 => (⟨store2, st.last_news_update⟩, false)

/-- The state of the articles collection at the end of a per-item loop,
whether the loop completed (`ok`) or an insert raised (`error`). -/
def exceptStore : Except (List StoredArticle) (List StoredArticle) → List StoredArticle
  | .ok s => s
  | .error s => s

/-- A `StockData` document (server.py lines 142-152); Python floats are
modelled as rationals, which is exact for the claims proved here (none
depend on float rounding). -/
structure StockData where
  symbol : String
  name : String
  current_price : ℚ
  price_change : ℚ
  percent_change : ℚ
  volume : Int
  market_cap : Option ℚ
  sector : String
  deriving DecidableEq

/-- Mongo `replace_one({"symbol": sym}, r)`: replace the first stored
document whose `symbol` equals `sym`. -/
def replaceFirst (sym : String) (r : StockData) : List StockData → List StockData
  | [] => []
  | a :: rest => if a.symbol == sym then r :: rest else a :: replaceFirst sym r rest

/-- The stock write of `refresh_stocks` / `scheduled_stock_update`
(server.py lines 779-783 and 899-903): `replace_one(..., upsert=True)`
keyed on `symbol` — replace the matching document if one exists, insert
otherwise. -/
def upsertStock (store : List StockData) (r : StockData) : List StockData :=
  if store.any (fun a => a.symbol == r.symbol) then replaceFirst r.symbol r store
  else store ++ [r]

/-- `refresh_stocks` (server.py lines 767-796): upsert every fetched
quote in order, then set `last_stock_update = now`. -/
def refresh_stocks (fetched : List StockData) (stocks : List StockData) (now : Nat) :
    List StockData × Nat :=
  (fetched.foldl upsertStock stocks, now)

/-- "At most one live record per symbol": no two stored quotes share a
symbol. -/
def uniqueSymbols (store : List StockData) : Prop :=
  List.Pairwise (fun a b => a.symbol ≠ b.symbol) store

/-- The query built by `get_articles` (server.py lines 622-626):
`query["category"]` is set only when the parameter is truthy (non-empty)
and a member of `CATEGORIES`; otherwise the query stays `{}`. -/
def get_articles_query (category : Option String) : Option String :=
  match category with
  | none => none
  | some c => if c != "" && CATEGORIES.contains c then some c else none

/-- `get_articles` (server.py lines 617-628) over the modelled store:
apply the category filter (if any) and the result limit.  The
`published_at` sort is owned by the external store (spec section 6) and
does not affect which categories are returned; it is not modelled. -/
def get_articles (store : List StoredArticle) (category : Option String)
    (limit : Nat) : List StoredArticle :=
  match get_articles_query category with
  | none => List.take limit store
  | some c => List.take limit (store.filter (fun a => a.category == c))

/-- The per-feed category hints of `RSS_FEEDS` (server.py lines 61-92), in
source order; each feed dict carries one. -/
def RSS_FEED_CATEGORIES : List String :=
  ["Industry Updates", "Industry Updates", "Academic Research",
   "Industry Updates", "Academic Research", "Industry Updates"]

/-- The title of the spec's categorization-determinism test case. -/
def fdaTitle : List Char := ("FDA Approval of Gene Therapy for X").data

/-- Sample raw item used by witnesses. -/
def sampleItem : NewsItem :=
  ⟨("Alpha biotech story").data, ("Body text").data, ("u1").data, "Industry Updates"⟩

/-- Second sample raw item: same title fingerprint as `sampleItem` (titles
agree on their lower-cased first 50 characters), different URL. -/
def sampleItem2 : NewsItem :=
  ⟨("ALPHA BIOTECH STORY").data, ("Other body").data, ("u2").data, "Industry Updates"⟩

/-- Sample quote used by witnesses. -/
def sampleStock : StockData :=
  ⟨"PFE", "Pfizer", 30, 1, 3, 1000, none, "Biotechnology/Pharmaceuticals"⟩

/-- Sample quote for the same symbol as `sampleStock` with different
fields, used by witnesses as the second fetch. -/
def sampleStock2 : StockData :=
  ⟨"PFE", "Pfizer", 31, 2, 5, 2000, some 150, "Biotechnology/Pharmaceuticals"⟩

/-- Sample stored article used by witnesses. -/
def sampleStored : StoredArticle :=
  ⟨("Alpha biotech story").data, ("Body text").data, ("u1").data,
   "Clinical Trials", ("Alpha biotech story").data, ("Body text...").data⟩

lemma parseLoop_length_bounds (ls : List (List Char)) (h s : List Char)
    (hh : h.length ≤ 60) (hs : s.length ≤ 403) :
    (parseLoop ls (h, s)).1.length ≤ 60 ∧ (parseLoop ls (h, s)).2.length ≤ 403 := by
  induction ls generalizing h s with
  | nil => exact ⟨hh, hs⟩
  | cons line rest ih =>
      simp only [parseLoop]
      split
      · exact ih _ _ (List.length_take_le _ _) hs
      · split
        · exact ih _ _ hh (le_trans (List.length_take_le _ _) (by omega))
        · exact ih _ _ hh hs

/-- C1 (amended): for every article annotation produced by
`summarize_article`, the headline has length at most 60; the summary has
length at most 403, not 400 — the fallback value is
`content[:400] + "..."`, whose three-character ellipsis is appended after
truncating to 400, so the fallback summary reaches 403 characters.  A
summary set from a `SUMMARY:` line is at most 400. -/
theorem summarize_article_bounds (resp : Option (List Char)) (content title : List Char) :
    (summarize_article resp content title).1.length ≤ 60 ∧
    (summarize_article resp content title).2.length ≤ 403 := by
  have hh : (List.take 60 title).length ≤ 60 := List.length_take_le _ _
  have hs : (List.take 400 content ++ ("...").data).length ≤ 403 := by
    have h1 := List.length_take_le 400 content
    have h2 : (("...").data).length = 3 := rfl
    rw [List.length_append, h2]
    omega
  cases resp with
  | none => exact ⟨hh, hs⟩
  | some r => exact parseLoop_length_bounds _ _ _ hh hs

set_option maxRecDepth 4000 in
/-- C1 (counterexample): on the fallback path with a 400-character body the
returned summary has length 403 > 400, refuting `summary.length ≤ 400`. -/
theorem summarize_article_bounds_cex :
    ¬ (summarize_article none (List.replicate 400 'a') []).2.length ≤ 400 := by
  decide

/-- C2 (amended): when the text-generation call fails, `summarize_article`
returns headline `title[:60]` and summary `content[:400] + "..."` — the
three-dot ellipsis is appended unconditionally, also when the body already
fits in 400 characters. -/
theorem summarize_article_fallback (content title : List Char) :
    summarize_article none content title =
      (List.take 60 title, List.take 400 content ++ ("...").data) := rfl

/-- C2 (counterexample): for the 3-character body `abc` (well under 400),
the fallback summary is `abc...`, i.e. the ellipsis marker is appended
even though the body fits, refuting "no ellipsis when the body fits". -/
theorem summarize_article_fallback_cex :
    (summarize_article none (("abc").data) (("T").data)).2 = ("abc...").data ∧
    (("abc").data).length ≤ 400 := by
  decide

lemma dedupGo_countP_zero (f : List Char) (l : List NewsItem) :
    ∀ seen, seen.contains f = true →
      (dedupGo l seen).countP (fun a => fingerprintT a.title == f) = 0 := by
  induction l with
  | nil => intro seen _; rfl
  | cons a rest ih =>
    intro seen hseen
    rw [dedupGo]
    by_cases hc : seen.contains (fingerprintT a.title) = true
    · rw [if_pos hc]
      exact ih seen hseen
    · rw [if_neg hc, List.countP_cons]
      have hne : (fingerprintT a.title == f) = false := by
        apply beq_eq_false_iff_ne.mpr
        intro he
        exact hc (by rw [he]; exact hseen)
      rw [hne, ih (fingerprintT a.title :: seen)
        (by simp only [List.contains_cons, hseen, Bool.or_true])]
      simp

lemma dedupGo_countP_min (f : List Char) (l : List NewsItem) :
    ∀ seen, seen.contains f = false →
      (dedupGo l seen).countP (fun a => fingerprintT a.title == f) =
        min 1 (l.countP (fun a => fingerprintT a.title == f)) := by
  induction l with
  | nil => intro seen _; rfl
  | cons a rest ih =>
    intro seen hseen
    rw [dedupGo]
    by_cases hc : seen.contains (fingerprintT a.title) = true
    · have hne : (fingerprintT a.title == f) = false := by
        apply beq_eq_false_iff_ne.mpr
        intro he
        rw [he] at hc
        rw [hseen] at hc
        exact Bool.false_ne_true hc
      rw [if_pos hc, ih seen hseen, List.countP_cons, hne]
      simp
    · rw [if_neg hc]
      by_cases hpa : (fingerprintT a.title == f) = true
      · have hfa : fingerprintT a.title = f := beq_iff_eq.mp hpa
        have hzero : (dedupGo rest (fingerprintT a.title :: seen)).countP
            (fun a => fingerprintT a.title == f) = 0 :=
          dedupGo_countP_zero f rest _ (by simp [List.contains_cons, hfa])
        rw [List.countP_cons, List.countP_cons, hpa, hzero]
        simp
      · have hpaf : (fingerprintT a.title == f) = false := by
          revert hpa
          cases fingerprintT a.title == f <;> simp
        have hseen2 : (fingerprintT a.title :: seen).contains f = false := by
          rw [List.contains_cons, hseen]
          have : (f == fingerprintT a.title) = false := by
            apply beq_eq_false_iff_ne.mpr
            intro he
            exact (beq_eq_false_iff_ne.mp hpaf) he.symm
          rw [this]
          rfl
        rw [List.countP_cons, List.countP_cons, hpaf, ih _ hseen2]
        simp

lemma dedupGo_find_eq (f : List Char) (l : List NewsItem) :
    ∀ seen, seen.contains f = false →
      (dedupGo l seen).find? (fun a => fingerprintT a.title == f) =
        l.find? (fun a => fingerprintT a.title == f) := by
  induction l with
  | nil => intro seen _; rfl
  | cons a rest ih =>
    intro seen hseen
    rw [dedupGo]
    by_cases hc : seen.contains (fingerprintT a.title) = true
    · have hne : (fingerprintT a.title == f) = false := by
        apply beq_eq_false_iff_ne.mpr
        intro he
        rw [he] at hc
        rw [hseen] at hc
        exact Bool.false_ne_true hc
      rw [if_pos hc, List.find?_cons_of_neg _ (by simp [hne])]
      exact ih seen hseen
    · rw [if_neg hc]
      by_cases hpa : (fingerprintT a.title == f) = true
      · rw [@List.find?_cons_of_pos _ (fun x => fingerprintT x.title == f) a
            (dedupGo rest (fingerprintT a.title :: seen)) hpa,
          @List.find?_cons_of_pos _ (fun x => fingerprintT x.title == f) a rest hpa]
      · have hpaf : (fingerprintT a.title == f) = false := by
          revert hpa
          cases fingerprintT a.title == f <;> simp
        have hseen2 : (fingerprintT a.title :: seen).contains f = false := by
          rw [List.contains_cons, hseen]
          have : (f == fingerprintT a.title) = false := by
            apply beq_eq_false_iff_ne.mpr
            intro he
            exact (beq_eq_false_iff_ne.mp hpaf) he.symm
          rw [this]
          rfl
        rw [List.find?_cons_of_neg _ (by simp [hpaf]),
          List.find?_cons_of_neg _ (by simp [hpaf])]
        exact ih _ hseen2

/-- C3: in a merged batch holding at least one item with title fingerprint
`f` (two items sharing their lower-cased 50-character title prefix is the
special case), the in-batch deduplication of `fetch_real_biotech_news`
keeps exactly one item with that fingerprint, namely the first occurrence
in batch order, and consequently the function's output — the candidate
set handed to the persistence loop of a cycle — carries at most one item
per fingerprint. -/
theorem dedup_first_occurrence (l : List NewsItem) (f : List Char)
    (h : 0 < l.countP (fun a => fingerprintT a.title == f)) :
    (dedupBatch l).countP (fun a => fingerprintT a.title == f) = 1 ∧
    (dedupBatch l).find? (fun a => fingerprintT a.title == f) =
      l.find? (fun a => fingerprintT a.title == f) ∧
    ∀ results, mergeResults results = l →
      (fetch_real_biotech_news results).countP
        (fun a => fingerprintT a.title == f) ≤ 1 := by
  have h1 : (dedupBatch l).countP (fun a => fingerprintT a.title == f) = 1 := by
    rw [dedupBatch, dedupGo_countP_min f l [] List.contains_nil]
    omega
  refine ⟨h1, dedupGo_find_eq f l [] List.contains_nil, ?_⟩
  intro rs hrs
  rw [fetch_real_biotech_news, hrs]
  calc (List.take 30 (dedupBatch l)).countP (fun a => fingerprintT a.title == f)
      ≤ (dedupBatch l).countP (fun a => fingerprintT a.title == f) :=
        (List.take_sublist _ _).countP_le _
    _ = 1 := h1

/-- Witness for C3: `sampleItem` and `sampleItem2` share their lower-cased
50-character title prefix; the deduplicated batch keeps exactly one. -/
theorem dedup_first_occurrence_witness :
    0 < ([sampleItem, sampleItem2].countP
      (fun a => fingerprintT a.title == fingerprintT sampleItem.title)) ∧
    (dedupBatch [sampleItem, sampleItem2]).countP
      (fun a => fingerprintT a.title == fingerprintT sampleItem.title) = 1 :=
  ⟨by decide,
   (dedup_first_occurrence [sampleItem, sampleItem2]
     (fingerprintT sampleItem.title) (by decide)).1⟩

lemma mapping_snd_mem (kv : List Char × String) (h : kv ∈ CATEGORY_MAPPING) :
    kv.2 ∈ CATEGORIES := by
  fin_cases h <;> decide

/-- C4: `categorize_article` always returns a member of the fixed
six-element `CATEGORIES` set, `extract_keywords` always returns at most 5
keywords, and every per-feed category hint in `RSS_FEEDS` is also in the
set — so every produced record satisfies the category and keyword
invariants. -/
theorem record_invariants (title content : List Char) :
    categorize_article title content ∈ CATEGORIES ∧
    (extract_keywords title content).length ≤ 5 ∧
    ∀ c ∈ RSS_FEED_CATEGORIES, c ∈ CATEGORIES := by
  refine ⟨?_, ?_, ?_⟩
  · simp only [categorize_article]
    split
    · next kv heq => exact mapping_snd_mem kv (List.mem_of_find?_eq_some heq)
    · repeat' split
      all_goals decide
  · simp only [extract_keywords]
    exact List.length_take_le _ _
  · intro c hc
    fin_cases hc <;> decide

/-- Witness for C4: evaluation at a concrete title and feed hint. -/
theorem record_invariants_witness :
    categorize_article (("CRISPR study").data) [] ∈ CATEGORIES ∧
    (extract_keywords (("CRISPR study").data) []).length ≤ 5 ∧
    ("Industry Updates" : String) ∈ RSS_FEED_CATEGORIES ∧
    ("Industry Updates" : String) ∈ CATEGORIES :=
  ⟨(record_invariants (("CRISPR study").data) []).1,
   (record_invariants (("CRISPR study").data) []).2.1,
   by decide,
   (record_invariants [] []).2.2 ("Industry Updates") (by decide)⟩

lemma containsSub_nil_pat (l : List Char) : containsSub [] l = true := by
  cases l <;> simp [containsSub, List.isPrefixOf]

lemma containsSub_append_left (pat l r : List Char) (h : containsSub pat l = true) :
    containsSub pat (l ++ r) = true := by
  induction l with
  | nil =>
    have hpat : pat = [] := by
      cases pat with
      | nil => rfl
      | cons p ps => simp [containsSub, List.isEmpty] at h
    subst hpat
    exact containsSub_nil_pat _
  | cons c rest ih =>
    rw [List.cons_append, containsSub]
    rw [containsSub] at h
    rcases Bool.or_eq_true_iff.mp h with hp | hr
    · have h1 : pat <+: (c :: rest) := List.isPrefixOf_iff_prefix.mp hp
      have h2 : pat <+: (c :: (rest ++ r)) := by
        have h3 : (c :: rest) <+: ((c :: rest) ++ r) := List.prefix_append _ _
        rw [List.cons_append] at h3
        exact h1.trans h3
      rw [ List.isPrefixOf_iff_prefix.mpr h2]
      rfl
    · rw [ih hr]
      simp

/-- C5 (counterexample): `categorize_article` on the title
`FDA Approval of Gene Therapy for X` does NOT return `Drug Modalities`
for every content: content containing `clinical trial` hits the earlier
`CATEGORY_MAPPING` entry and yields `Clinical Trials`, refuting the
"with any content" part of the claim. -/
theorem categorize_fda_cex :
    categorize_article fdaTitle (("clinical trial").data) = "Clinical Trials" ∧
    categorize_article fdaTitle (("clinical trial").data) ≠ "Drug Modalities" := by
  constructor <;> decide

/-- C5 (amended): for every content whose lower-cased concatenation with
the title `FDA Approval of Gene Therapy for X` does not contain the
earlier-ordered mapping keyword `clinical trial`, categorization is the
deterministic first match over `CATEGORY_MAPPING` and returns
`Drug Modalities` via the `fda approval` keyword of the title. -/
theorem categorize_fda_first_match (content : List Char)
    (h : containsSub (("clinical trial").data)
      (pyLower (fdaTitle ++ [' '] ++ content)) = false) :
    categorize_article fdaTitle content = "Drug Modalities" := by
  have htext : pyLower (fdaTitle ++ [' '] ++ content) =
      pyLower fdaTitle ++ pyLower ([' '] ++ content) := by
    rw [pyLower, pyLower, pyLower, List.append_assoc, List.map_append]
  have hfda : containsSub (("fda approval").data)
      (pyLower (fdaTitle ++ [' '] ++ content)) = true := by
    rw [htext]
    exact containsSub_append_left _ _ _ (by decide)
  simp only [categorize_article]
  rw [CATEGORY_MAPPING]
  rw [List.find?_cons, h, List.find?_cons, hfda]

/-- Witness for C5 (amended): empty content; the theorem applies and the
category evaluates to `Drug Modalities`. -/
theorem categorize_fda_first_match_witness :
    containsSub (("clinical trial").data) (pyLower (fdaTitle ++ [' '] ++ [])) = false ∧
    categorize_article fdaTitle [] = "Drug Modalities" :=
  ⟨by decide, categorize_fda_first_match [] (by decide)⟩

lemma insertLoop_extends (respOf : NewsItem → Option (List Char))
    (insertFails : Nat → Bool) :
    ∀ (items : List NewsItem) (n : Nat) (store : List StoredArticle),
      ∃ t, exceptStore (insertLoop respOf insertFails items n store) = store ++ t := by
  intro items
  induction items with
  | nil =>
    intro n store
    exact ⟨[], (List.append_nil _).symm⟩
  | cons it rest ih =>
    intro n store
    simp only [insertLoop]
    by_cases hex : existsInStore store it = true
    · rw [if_pos hex]
      exact ih n store
    · rw [if_neg hex]
      by_cases hf : insertFails n = true
      · rw [if_pos hf]
        exact ⟨[], (List.append_nil _).symm⟩
      · rw [if_neg hf]
        obtain ⟨t, ht⟩ := ih (n + 1) (store ++
          [⟨it.title, it.content, it.url, it.category,
            (summarize_article (respOf it) it.content it.title).1,
            (summarize_article (respOf it) it.content it.title).2⟩])
        refine ⟨(⟨it.title, it.content, it.url, it.category,
          (summarize_article (respOf it) it.content it.title).1,
          (summarize_article (respOf it) it.content it.title).2⟩ : StoredArticle) :: t, ?_⟩
        rw [ht, List.append_assoc]
        rfl

/-- C6: a news cycle that raises during the per-item loop (a store failure
while inserting) leaves the `last_news_update` cursor at its prior value;
the cursor is set to the current time only when the loop completes; and in
either case the articles collection only grows — records inserted before
the failure are not rolled back. -/
theorem refresh_cursor_no_rollback (fetched : List NewsItem)
    (respOf : NewsItem → Option (List Char)) (insertFails : Nat → Bool)
    (now : Nat) (st : ServerState) :
    ((refresh_articles fetched respOf insertFails now st).2 = false →
      (refresh_articles fetched respOf insertFails now st).1.last_news_update =
        st.last_news_update) ∧
    ((refresh_articles fetched respOf insertFails now st).2 = true →
      (refresh_articles fetched respOf insertFails now st).1.last_news_update = now) ∧
    ∃ t, (refresh_articles fetched respOf insertFails now st).1.articles =
      st.articles ++ t := by
  obtain ⟨t, ht⟩ := insertLoop_extends respOf insertFails fetched 0 st.articles
  cases hres : insertLoop respOf insertFails fetched 0 st.articles with
  | ok s =>
    rw [hres] at ht
    rw [refresh_articles, hres]
    refine ⟨?_, ?_, ⟨t, ht⟩⟩
    · intro hx
      simp at hx
    · intro _
      rfl
  | error s =>
    rw [hres] at ht
    rw [refresh_articles, hres]
    refine ⟨?_, ?_, ⟨t, ht⟩⟩
    · intro _
      rfl
    · intro hx
      simp at hx

/-- Witness for C6: a single fresh item whose insert raises; the returned
state keeps the prior cursor value 0 rather than the new time 5. -/
theorem refresh_cursor_no_rollback_witness :
    (refresh_articles [sampleItem] (fun _ => none) (fun _ => true) 5
      ⟨[], 0⟩).2 = false ∧
    (refresh_articles [sampleItem] (fun _ => none) (fun _ => true) 5
      ⟨[], 0⟩).1.last_news_update = 0 :=
  ⟨by decide,
   (refresh_cursor_no_rollback [sampleItem] (fun _ => none) (fun _ => true) 5
     ⟨[], 0⟩).1 (by decide)⟩

lemma mergeResults_go (rs : List (Except Unit (List NewsItem))) :
    ∀ acc, (List.foldl (fun acc r =>
        match r with
        | .ok items => acc ++ items
        | .error _ => acc) acc rs) = acc ++ mergeResults rs := by
  induction rs with
  | nil =>
    intro acc
    rw [mergeResults]
    simp
  | cons r rest ih =>
    intro acc
    rw [mergeResults, List.foldl_cons, List.foldl_cons, ih, ih]
    cases r with
    | ok items => simp
    | error e => simp

lemma mergeResults_cons (r : Except Unit (List NewsItem))
    (rs : List (Except Unit (List NewsItem))) :
    mergeResults (r :: rs) =
      (match r with
        | .ok items => items
        | .error _ => []) ++ mergeResults rs := by
  rw [mergeResults, List.foldl_cons, mergeResults_go]
  cases r <;> simp

lemma mergeResults_append (a b : List (Except Unit (List NewsItem))) :
    mergeResults (a ++ b) = mergeResults a ++ mergeResults b := by
  induction a with
  | nil => simp [mergeResults]
  | cons r rest ih =>
    rw [List.cons_append, mergeResults_cons, mergeResults_cons, ih, List.append_assoc]

lemma mem_mergeResults (rs : List (Except Unit (List NewsItem)))
    (items : List NewsItem) (hok : Except.ok items ∈ rs) (x : NewsItem)
    (hx : x ∈ items) : x ∈ mergeResults rs := by
  induction rs with
  | nil => cases hok
  | cons r rest ih =>
    rw [mergeResults_cons]
    rcases List.mem_cons.mp hok with hok | hok
    · rw [← hok]
      exact List.mem_append.mpr (Or.inl hx)
    · exact List.mem_append.mpr (Or.inr (ih hok))

/-- C7: when one fetching task of `fetch_real_biotech_news` raises while
the others return item lists, the exception contributes zero items and
does not abort the merge — the merged batch equals the merge of the
remaining results and still contains every item returned by every
non-failing task; the merge itself is a total function, so the cycle
completes normally. -/
theorem fetch_partial_failure_isolation
    (pre suf : List (Except Unit (List NewsItem))) :
    mergeResults (pre ++ Except.error () :: suf) = mergeResults (pre ++ suf) ∧
    ∀ items, Except.ok items ∈ pre ++ suf → ∀ x ∈ items,
      x ∈ mergeResults (pre ++ Except.error () :: suf) := by
  have heq : mergeResults (pre ++ Except.error () :: suf) =
      mergeResults (pre ++ suf) := by
    rw [mergeResults_append, mergeResults_append, mergeResults_cons]
    simp
  refine ⟨heq, fun items hok x hx => ?_⟩
  rw [heq]
  exact mem_mergeResults _ items hok x hx

/-- Witness for C7: two singleton task results around a failing task; the
item of the second task is still in the merged batch. -/
theorem fetch_partial_failure_isolation_witness :
    ((Except.ok [sampleItem2] : Except Unit (List NewsItem)) ∈
      ([Except.ok [sampleItem]] ++ [Except.ok [sampleItem2]] :
        List (Except Unit (List NewsItem)))) ∧
    sampleItem2 ∈ mergeResults
      ([Except.ok [sampleItem]] ++ Except.error () :: [Except.ok [sampleItem2]]) :=
  ⟨by simp,
   (fetch_partial_failure_isolation [Except.ok [sampleItem]]
     [Except.ok [sampleItem2]]).2 [sampleItem2] (by simp) sampleItem2 (by simp)⟩

lemma mem_replaceFirst (sym : String) (r x : StockData) :
    ∀ store, x ∈ replaceFirst sym r store → x = r ∨ x ∈ store := by
  intro store
  induction store with
  | nil => intro h; cases h
  | cons a rest ih =>
    rw [replaceFirst]
    by_cases ha : (a.symbol == sym) = true
    · rw [if_pos ha]
      intro h
      rcases List.mem_cons.mp h with h | h
      · exact Or.inl h
      · exact Or.inr (List.mem_cons_of_mem _ h)
    · rw [if_neg ha]
      intro h
      rcases List.mem_cons.mp h with h | h
      · exact Or.inr (h ▸ List.mem_cons_self _ _)
      · rcases ih h with h2 | h2
        · exact Or.inl h2
        · exact Or.inr (List.mem_cons_of_mem _ h2)

lemma replaceFirst_unique (r : StockData) :
    ∀ store, uniqueSymbols store →
      store.any (fun x => x.symbol == r.symbol) = true →
      uniqueSymbols (replaceFirst r.symbol r store) ∧
      (replaceFirst r.symbol r store).filter (fun x => x.symbol == r.symbol) = [r] := by
  intro store
  induction store with
  | nil =>
    intro _ hany
    simp at hany
  | cons a rest ih =>
    intro hinv hany
    rw [uniqueSymbols, List.pairwise_cons] at hinv
    obtain ⟨hhead, htail⟩ := hinv
    rw [replaceFirst]
    by_cases ha : (a.symbol == r.symbol) = true
    · rw [if_pos ha]
      have har : a.symbol = r.symbol := beq_iff_eq.mp ha
      constructor
      · rw [uniqueSymbols, List.pairwise_cons]
        exact ⟨fun y hy => har ▸ hhead y hy, htail⟩
      · rw [List.filter_cons, if_pos (by simp)]
        have hrest : rest.filter (fun x => x.symbol == r.symbol) = [] := by
          rw [List.filter_eq_nil_iff]
          intro y hy hyr
          exact hhead y hy (har.trans (beq_iff_eq.mp hyr).symm)
        rw [hrest]
    · rw [if_neg ha]
      have hane : a.symbol ≠ r.symbol := by
        intro he
        exact ha (beq_iff_eq.mpr he)
      have hany2 : rest.any (fun x => x.symbol == r.symbol) = true := by
        rw [List.any_cons] at hany
        rcases Bool.or_eq_true_iff.mp hany with h1 | h1
        · exact absurd h1 ha
        · exact h1
      obtain ⟨ih1, ih2⟩ := ih htail hany2
      constructor
      · rw [uniqueSymbols, List.pairwise_cons]
        refine ⟨?_, ih1⟩
        intro y hy
        rcases mem_replaceFirst _ _ _ _ hy with h2 | h2
        · rw [h2]
          exact hane
        · exact hhead y h2
      · rw [List.filter_cons, if_neg (by simp [ha])]
        exact ih2

lemma upsert_unique (store : List StockData) (r : StockData)
    (hinv : uniqueSymbols store) :
    uniqueSymbols (upsertStock store r) ∧
    (upsertStock store r).filter (fun x => x.symbol == r.symbol) = [r] := by
  rw [upsertStock]
  by_cases hany : store.any (fun a => a.symbol == r.symbol) = true
  · rw [if_pos hany]
    exact replaceFirst_unique r store hinv hany
  · rw [if_neg hany]
    have hall : ∀ x ∈ store, ¬(x.symbol == r.symbol) = true := by
      have hall2 : ∀ x ∈ store, ¬x.symbol = r.symbol := by simpa using hany
      intro x hx hbeq
      exact hall2 x hx (beq_iff_eq.mp hbeq)
    constructor
    · rw [uniqueSymbols, List.pairwise_append]
      refine ⟨hinv, List.pairwise_singleton _ _, ?_⟩
      intro x hx b hb
      rw [List.mem_singleton] at hb
      rw [hb]
      exact fun he => hall x hx (beq_iff_eq.mpr he)
    · rw [List.filter_append, List.filter_eq_nil_iff.mpr hall]
      simp

/-- C8: stock writes are replace-or-insert keyed on `symbol`: they
preserve "at most one stored record per symbol", leave exactly one record
for the written symbol, and upserting two quotes for the same symbol in
sequence leaves exactly one record for it, whose fields are those of the
second (most recent) fetch. -/
theorem stock_upsert_invariant (store : List StockData) (a b : StockData)
    (hinv : uniqueSymbols store) (hsym : b.symbol = a.symbol) :
    uniqueSymbols (upsertStock store a) ∧
    (upsertStock store a).countP (fun x => x.symbol == a.symbol) = 1 ∧
    (upsertStock (upsertStock store a) b).filter
      (fun x => x.symbol == a.symbol) = [b] := by
  obtain ⟨h1, h2⟩ := upsert_unique store a hinv
  obtain ⟨h3, h4⟩ := upsert_unique (upsertStock store a) b h1
  rw [hsym] at h4
  refine ⟨h1, ?_, h4⟩
  rw [List.countP_eq_length_filter, h2]
  rfl

/-- Witness for C8: fetching `PFE` twice starting from an empty store
leaves exactly the second quote. -/
theorem stock_upsert_invariant_witness :
    uniqueSymbols ([] : List StockData) ∧
    (upsertStock (upsertStock [] sampleStock) sampleStock2).filter
      (fun x => x.symbol == sampleStock.symbol) = [sampleStock2] :=
  ⟨List.Pairwise.nil,
   (stock_upsert_invariant [] sampleStock sampleStock2 List.Pairwise.nil rfl).2.2⟩

/-- C10: a `category` query parameter outside the fixed `CATEGORIES` set
is silently ignored by `get_articles` — the result is the same as with no
filter at all (articles of all categories, no error, no empty result) —
while a value inside the set narrows the query to that category. -/
theorem get_articles_invalid_category (store : List StoredArticle) (c : String)
    (limit : Nat) (h : c ∉ CATEGORIES) :
    get_articles store (some c) limit = get_articles store none limit ∧
    ∀ c2 ∈ CATEGORIES, get_articles store (some c2) limit =
      List.take limit (store.filter (fun a => a.category == c2)) := by
  constructor
  · have hc : CATEGORIES.contains c = false := by
      simp [List.contains, List.elem_eq_mem, h]
    rw [get_articles, get_articles, get_articles_query, get_articles_query, hc]
    simp
  · intro c2 hc2
    have hcontains : CATEGORIES.contains c2 = true := by
      simp [List.contains, List.elem_eq_mem, hc2]
    have hne : (c2 != "") = true := by
      fin_cases hc2 <;> decide
    rw [get_articles, get_articles_query, hne, hcontains]
    rfl

/-- Witness for C10: the value `InvalidCategory` is not a category; the
listing with it equals the unfiltered listing on a concrete store. -/
theorem get_articles_invalid_category_witness :
    (("InvalidCategory" : String) ∉ CATEGORIES) ∧
    get_articles [sampleStored] (some ("InvalidCategory")) 20 =
      get_articles [sampleStored] none 20 :=
  ⟨by decide,
   (get_articles_invalid_category [sampleStored] ("InvalidCategory") 20 (by decide)).1⟩
